import Mathlib

/-!
Shallow embedding of khal `controllers.py` (the agenda/list rendering pipeline)
and verification of its specification.

Modelling conventions:

* Local zone-naive datetimes are `Nat` minutes since an (arbitrary) local epoch
  midnight; a calendar day is the block of 1440 minutes `[d*1440, (d+1)*1440)`.
  Timezone attachment (`aux.datetime_fillin` on an already-complete datetime,
  and `replace(tzinfo=None)`) is the identity in this naive-minutes model.
* Calendar dates (used by `get_agenda`) are `Int` day numbers counted from
  1970-01-01 (which was a Thursday), so `weekday d = (d + 3) % 7` with
  Monday = 0, exactly as Python's `date.weekday()`.
* The calendar collection, the date-expression parsers and `event.format` /
  `event.relative_to` are external collaborators: they enter as function
  parameters.  `sys.exit(1)` after `logging.fatal` is modelled as
  `Except.error` (the whole call aborts with no output).
* Python's `sorted` is a stable sort; `pysorted` below is a stable insertion
  sort by the same canonical key, extensionally equal to any stable sort.
-/

namespace Khal

/-- Day number of a naive datetime given in minutes. -/
def dayOf (t : Nat) : Nat := t / 1440

/-- Local midnight at the start of the day containing `t` (minutes). -/
def startOfDay (t : Nat) : Nat := dayOf t * 1440

/-- Modelled from the spec: `aux.datetime_fillin(t.date())` with the default
`end=True` flag (khal `aux.py` is not part of the shown source) — "returns a
fully zoned datetime at start-of-day or end-of-day as appropriate"; the end of
`t`'s day in the half-open convention is the next local midnight. -/
def datetime_fillin_end (t : Nat) : Nat := (dayOf t + 1) * 1440

/-- A calendar event as the pipeline sees it: a zone-naive start (minutes),
a stable secondary sort key, and the calendar-origin color. -/
structure Event where
  start : Nat
  key : Nat
  color : String
deriving DecidableEq

/-- Modelled from the spec: the collection layer's canonical event order
(`khal.khalendar.backend.sort_key`, not part of the shown source) — "start
time primary key, secondary tie-break defined by that layer". -/
def evLE (a b : Event) : Bool :=
  decide (a.start < b.start) || (decide (a.start = b.start) && decide (a.key ≤ b.key))

/-- Insert `a` into `l` in front of the first element not below it
(stable: on ties the incoming, originally-earlier element goes first). -/
def insortBy (le : α → α → Bool) (a : α) : List α → List α
  | [] => [a]
  | b :: l => if le a b then a :: b :: l else b :: insortBy le a l

/-- Stable insertion sort; model of Python's (stable) `sorted`. -/
def sortBy (le : α → α → Bool) : List α → List α
  | [] => []
  | a :: l => insortBy le a (sortBy le l)

/-- `sorted(...)` on events, by the canonical event order. -/
def pysorted (l : List Event) : List Event := sortBy evLE l

/-- Boolean `≤` on `Int`, for Python's `list.sort()` on dates. -/
def intLE (a b : Int) : Bool := decide (a ≤ b)

/-- The merge step of `get_list` (controllers.py lines 281-283): sort the
zoned query result, sort the floating query result, concatenate, re-sort. -/
def mergeEvents (loc flo : List Event) : List Event :=
  pysorted (pysorted loc ++ pysorted flo)

/-! ### String helpers: `str.splitlines`, `textwrap.wrap`, `click.style`,
terminal colorization. -/

/-- Split a character list on a separator character (every occurrence,
keeping empty groups), like Python `str.split(sep)`. -/
def splitOnChar (c : Char) : List Char → List (List Char)
  | [] => [[]]
  | a :: l =>
    let r := splitOnChar c l
    if a = c then [] :: r
    else match r with
      | [] => [[a]]
      | g :: gs => (a :: g) :: gs

/-- Model of Python `str.splitlines` (newline-only): split on `\n`, with no
trailing empty line for a trailing newline, and `[]` for the empty string. -/
def splitlines (s : String) : List String :=
  let parts := splitOnChar (Char.ofNat 10) s.data
  (if parts.getLast? = some [] then parts.dropLast else parts).map
    (fun l => (⟨l⟩ : String))

/-- Whitespace as `textwrap` sees it. -/
def isWs (c : Char) : Bool := c = ' ' || c = '\n' || c = '\t' || c = '\r'

/-- Split into whitespace-separated words (whitespace, including newlines,
is collapsed and discarded), accumulating the current word reversed. -/
def wordsGo : List Char → List Char → List (List Char)
  | [], cur => if cur.isEmpty then [] else [cur.reverse]
  | c :: l, cur =>
    if isWs c then (if cur.isEmpty then wordsGo l [] else cur.reverse :: wordsGo l [])
    else wordsGo l (c :: cur)

/-- Greedy line packing: extend the current line with the next word while it
fits in `width`, else start a new line. -/
def packGo (width : Nat) : List (List Char) → List Char → List (List Char)
  | [], cur => [cur]
  | w :: ws, cur =>
    if cur.length + 1 + w.length ≤ width then packGo width ws (cur ++ ' ' :: w)
    else cur :: packGo width ws w

/-- Model of Python `textwrap.wrap(s, width)` with default settings: all
whitespace (spaces, tabs, newlines) is collapsed, the words are packed
greedily into lines of at most `width` characters; the empty (or all-white)
string yields no lines.  (Splitting of single words longer than `width` is
not modelled; no claim exercises it.) -/
def textwrapWrap (width : Nat) (s : String) : List String :=
  match wordsGo s.data [] with
  | [] => []
  | w :: ws => (packGo width ws w).map (fun l => (⟨l⟩ : String))

/-- Model of `click.style(s, bold=True)`: wrap the string in terminal bold
markers. -/
def style (s : String) (bold : Bool) : String :=
  if bold then "\x1b[1m" ++ s ++ "\x1b[0m" else s

/-- Modelled from the spec: khal `.terminal.colored` (not part of the shown
source) — a `FormattedLine` is "a string plus an optional color annotating
it"; we prepend the color annotation to the line. -/
def colored (s : String) (color : String) (bold_for_light_color : Bool) : String :=
  (if bold_for_light_color then color else color) ++ s

/-! ### `get_list` (controllers.py lines 250-298) -/

/-- The static-value environment handed to `event.format` (`env`). -/
def Env : Type := List (String × String)

/-- The empty environment `{}` substituted for a missing `env`. -/
def emptyEnv : Env := []

/-- The guard of the loop body at line 286: the event is processed unless
`notstarted` is set and its zone-naive start lies strictly before the
window start. -/
def keep (notstarted : Bool) (rangeStart : Nat) (ev : Event) : Bool :=
  !(notstarted && decide (ev.start < rangeStart))

/-- The events `get_list` actually renders for the window `[s, e)`:
the merged zoned + floating query results, filtered by `keep`
(controllers.py lines 281-286). -/
def keptEvents (qloc qflo : Nat → Nat → List Event) (notstarted : Bool)
    (s e : Nat) : List Event :=
  (mergeEvents (qloc s e) (qflo s e)).filter (keep notstarted s)

/-- The rendering loop of `get_list` (lines 284-296) on the kept events:
format each event (a `KeyError` from the template is fatal and aborts the
whole call, lines 287-291), then either wrap to `width` or append the raw
string (lines 293-296; Python's `if width:` is false for `None` and `0`). -/
def wrapWidth (width : Option Nat) (s : String) : List String :=
  match width with
  | some w => if w = 0 then [s] else textwrapWrap w s
  | none => [s]

/-- Run `event.format` over the kept events in order, aborting at the first
failure, concatenating the (possibly wrapped) lines. -/
def renderEvents (fmt : Event → Nat × Nat → Env → Except String String)
    (rt : Nat × Nat) (env : Env) (width : Option Nat) :
    List Event → Except String (List String)
  | [] => .ok []
  | ev :: rest =>
    match fmt ev rt env with
    | .error err => .error err
    | .ok s =>
      match renderEvents fmt rt env width rest with
      | .error err => .error err
      | .ok tl => .ok (wrapWidth width s ++ tl)

/-- `get_list(collection, locale, start, end, format, notstarted, env, width)`:
query both event sources for `[s, e)`, merge-sort them, filter by
`notstarted`, and render.  `env=None` defaults to `{}` (lines 272-273);
`relative_to=(start, end)` is the naive window passed to `event.format`. -/
def get_list (qloc qflo : Nat → Nat → List Event)
    (fmt : Event → Nat × Nat → Env → Except String String)
    (s e : Nat) (notstarted : Bool) (env : Option Env) (width : Option Nat) :
    Except String (List String) :=
  renderEvents fmt (s, e) (env.getD emptyEnv) width (keptEvents qloc qflo notstarted s e)

/-! ### `get_list_from_str` (controllers.py lines 184-247) -/

/-- The range-resolution step of `get_list_from_str` (lines 208-229).
`parser` models `aux.guessrangefstr` (raising = `.error`), `durparser`
models `aux.guesstimedeltafstr`; both live in khal `aux.py`, outside the
shown source, so only their spec contracts constrain them.  With no tokens
the range is start-of-today to start-of-tomorrow (or today plus the parsed
default span); with tokens, a `None` component of the parsed pair is an
`InvalidDate` carrying the joined token text. -/
def resolveRange (parser : List String → Except String (Option Nat × Option Nat))
    (durparser : String → Except String Nat) (now : Nat)
    (daterange : List String) (default_timedelta : Option String) :
    Except String (Nat × Nat) :=
  if daterange.length = 0 then
    let s := startOfDay now
    match default_timedelta with
    | none => .ok (s, datetime_fillin_end s)
    | some td =>
      match durparser td with
      | .error err => .error err
      | .ok d => .ok (s, s + d)
  else
    match parser daterange with
    | .error err => .error err
    | .ok (some s, some e) => .ok (s, e)
    | .ok _ => .error ("Invalid date range: \"" ++ String.intercalate " " daterange ++ "\"")

/-- The day sub-ranges visited by the `while start < end` loop of
`get_list_from_str` (lines 235-241): each iteration covers
`[start, day_end)` where `day_end` is `end` if the cursor is on `end`'s day
and the end of the cursor's day otherwise, then jumps to the next local
midnight. -/
def partitionRanges (s e : Nat) : List (Nat × Nat) :=
  if _h : s < e then
    (s, if dayOf s = dayOf e then e else datetime_fillin_end s)
      :: partitionRanges (datetime_fillin_end s) e
  else []
termination_by e - s
decreasing_by
  simp only [datetime_fillin_end, dayOf]
  omega

/-- Run `get_list` over each day sub-range in order, concatenating the
lines, aborting at the first fatal error (the loop body, lines 239-240). -/
def runPartition (qloc qflo : Nat → Nat → List Event)
    (fmt : Event → Nat × Nat → Env → Except String String)
    (notstarted : Bool) (env : Env) (width : Option Nat) :
    List (Nat × Nat) → Except String (List String)
  | [] => .ok []
  | p :: rest =>
    match get_list qloc qflo fmt p.1 p.2 notstarted (some env) width with
    | .error err => .error err
    | .ok col =>
      match runPartition qloc qflo fmt notstarted env width rest with
      | .error err => .error err
      | .ok tl => .ok (col ++ tl)

/-- `get_list_from_str`: resolve the range, then either one `get_list` call
over the whole span (`once=True`, lines 243-244 — note `env` is *not*
forwarded there) or one per day sub-range (`once=False`, lines 232-241,
where a missing `env` becomes `{}`); an empty line list becomes the single
bolded `"No events"` placeholder (lines 245-247). -/
def get_list_from_str (qloc qflo : Nat → Nat → List Event)
    (fmt : Event → Nat × Nat → Env → Except String String)
    (parser : List String → Except String (Option Nat × Option Nat))
    (durparser : String → Except String Nat) (now : Nat)
    (daterange : List String) (notstarted once : Bool)
    (default_timedelta : Option String) (env : Option Env) (width : Option Nat) :
    Except String (List String) :=
  match resolveRange parser durparser now daterange default_timedelta with
  | .error err => .error err
  | .ok se =>
    let result :=
      if once then get_list qloc qflo fmt se.1 se.2 notstarted none width
      else runPartition qloc qflo fmt notstarted (env.getD emptyEnv) width
        (partitionRanges se.1 se.2)
    match result with
    | .error err => .error err
    | .ok col => .ok (if col = [] then [style "No events" true] else col)

/-! ### `get_agenda` (controllers.py lines 46-131) -/

/-- Python `date.weekday()` on day numbers counted from 1970-01-01
(a Thursday): Monday = 0 … Sunday = 6. -/
def weekday (d : Int) : Int := (d + 3) % 7

/-- The week-snap of line 100: move the date back by
`(weekday - firstweekday) % 7` days (Python `%` on a positive modulus,
i.e. `Int.emod`). -/
def snapWeek (firstweekday d : Int) : Int := d - (weekday d - firstweekday) % 7

/-- The day list `get_agenda` resolves (lines 83-107): default day count 2,
default anchor today, optional week-snap of every anchor (which also forces
the day count to 7, before expansion), expansion of each anchor into
`days` consecutive dates, flattening (outer loop over the offset) and an
ascending sort without deduplication. -/
def agendaDaylist (dates : List Int) (today : Int) (firstweekday : Int)
    (days : Option Nat) (week : Bool) : List Int :=
  let days0 := days.getD 2
  let dates0 := if dates.isEmpty then [today] else dates
  let dates1 := if week then dates0.map (snapWeek firstweekday) else dates0
  let days1 := if week then 7 else days0
  sortBy intLE ((List.range days1).flatMap (fun one => dates1.map (fun d => d + (one : Int))))

/-- `construct_daynames` (lines 46-62): label each day `"Today:"`,
`"Tomorrow:"` or its long-date rendering (`strftime` is the collaborator
`longdateformat`). -/
def construct_daynames (daylist : List Int) (today : Int)
    (longdateformat : Int → String) : List (Int × String) :=
  daylist.map (fun day =>
    (day, if day = today then "Today:"
      else if day = today + 1 then "Tomorrow:"
      else longdateformat day))

/-- The per-event lines of the `get_agenda` body (lines 119-127): split the
`relative_to` rendering on its line breaks, word-wrap each resulting line
to `width`, and colorize every wrapped line with the event's calendar
color. -/
def agendaEventLines (relative_to : Event → Int → Bool → String) (width : Nat)
    (full bflc : Bool) (day : Int) (ev : Event) : List String :=
  ((splitlines (relative_to ev day full)).flatMap (fun item => textwrapWrap width item)).map
    (fun line => colored line ev.color bflc)

/-- One iteration of the day loop of `get_agenda` (lines 111-127): skip
event-less days unless `show_all_days`; otherwise emit a blank separator
before every group except the first, the bold day label, then the event
lines. -/
def agendaDayBlock (geo : Int → List Event) (relative_to : Event → Int → Bool → String)
    (width : Nat) (full show_all_days bflc : Bool)
    (col : List String) (dn : Int × String) : List String :=
  let events := pysorted (geo dn.1)
  if events.isEmpty && !show_all_days then col
  else
    (if col.isEmpty then col else col ++ [""]) ++
      style dn.2 true :: events.flatMap (agendaEventLines relative_to width full bflc dn.1)

/-- `get_agenda`: resolve the day list, label it, fold the day loop over it,
and substitute the bolded `"No events"` placeholder for an empty result
(lines 129-131).  Anchor dates arrive already parsed (the `isinstance(day,
date)` branch of lines 89-94; string anchors go through the external
`guessdatetimefstr` collaborator and are not modelled). -/
def get_agenda (geo : Int → List Event) (relative_to : Event → Int → Bool → String)
    (today : Int) (dates : List Int) (firstweekday : Int) (days : Option Nat)
    (width : Nat) (week full show_all_days bflc : Bool)
    (longdateformat : Int → String) : List String :=
  let event_column :=
    (construct_daynames (agendaDaylist dates today firstweekday days week) today longdateformat).foldl
      (agendaDayBlock geo relative_to width full show_all_days bflc) []
  if event_column = [] then [style "No events" true] else event_column

/-! ### The partition chain predicate (for the day-partition claim) -/

/-- `chainCovers s e L`: the sub-ranges in `L` are non-empty, consecutive
(each starts where the previous one ends), start at `s` and end at `e`. -/
def chainCovers : Nat → Nat → List (Nat × Nat) → Prop
  | s, e, [] => s = e
  | s, e, p :: rest => p.1 = s ∧ s < p.2 ∧ chainCovers p.2 e rest

/-- A list ordered (non-decreasing) by the collection's canonical event
order. -/
def canonicalOrdered (l : List Event) : Prop :=
  l.Pairwise (fun a b => evLE a b = true)

/-! ### Sorting lemmas -/

theorem evLE_total (a b : Event) : evLE a b = true ∨ evLE b a = true := by
  simp only [evLE, Bool.or_eq_true, Bool.and_eq_true, decide_eq_true_eq]
  omega

theorem evLE_trans (a b c : Event) (h1 : evLE a b = true) (h2 : evLE b c = true) :
    evLE a c = true := by
  simp only [evLE, Bool.or_eq_true, Bool.and_eq_true, decide_eq_true_eq] at h1 h2 ⊢
  omega

theorem intLE_total (a b : Int) : intLE a b = true ∨ intLE b a = true := by
  simp only [intLE, decide_eq_true_eq]
  omega

theorem intLE_trans (a b c : Int) (h1 : intLE a b = true) (h2 : intLE b c = true) :
    intLE a c = true := by
  simp only [intLE, decide_eq_true_eq] at h1 h2 ⊢
  omega

theorem mem_insortBy (le : α → α → Bool) (a : α) (l : List α) (x : α) :
    x ∈ insortBy le a l ↔ x = a ∨ x ∈ l := by
  induction l with
  | nil => simp [insortBy]
  | cons b l ih =>
    simp only [insortBy]
    split
    · simp [or_comm, or_left_comm]
    · simp [ih, or_comm, or_left_comm]

theorem pairwise_insortBy (le : α → α → Bool)
    (htot : ∀ a b, le a b = true ∨ le b a = true)
    (htrans : ∀ a b c, le a b = true → le b c = true → le a c = true)
    (a : α) (l : List α) (h : l.Pairwise (fun x y => le x y = true)) :
    (insortBy le a l).Pairwise (fun x y => le x y = true) := by
  induction l with
  | nil => simp [insortBy]
  | cons b l ih =>
    simp only [insortBy]
    rw [List.pairwise_cons] at h
    obtain ⟨hb, hl⟩ := h
    split
    case isTrue hab =>
      refine List.Pairwise.cons ?_ (List.Pairwise.cons hb hl)
      intro x hx
      rw [List.mem_cons] at hx
      rcases hx with rfl | hx
      · exact hab
      · exact htrans a b x hab (hb x hx)
    case isFalse hab =>
      have hba : le b a = true := (htot a b).resolve_left (by simpa using hab)
      refine List.Pairwise.cons ?_ (ih hl)
      intro x hx
      rcases (mem_insortBy le a l x).mp hx with hx | hx
      · exact hx ▸ hba
      · exact hb x hx

theorem pairwise_sortBy (le : α → α → Bool)
    (htot : ∀ a b, le a b = true ∨ le b a = true)
    (htrans : ∀ a b c, le a b = true → le b c = true → le a c = true)
    (l : List α) : (sortBy le l).Pairwise (fun x y => le x y = true) := by
  induction l with
  | nil => simp [sortBy]
  | cons a l ih => exact pairwise_insortBy le htot htrans a (sortBy le l) ih

theorem sortBy_eq_of_pairwise (le : α → α → Bool) (l : List α)
    (h : l.Pairwise (fun x y => le x y = true)) : sortBy le l = l := by
  induction l with
  | nil => rfl
  | cons a l ih =>
    rw [List.pairwise_cons] at h
    obtain ⟨ha, hl⟩ := h
    simp only [sortBy, ih hl]
    cases l with
    | nil => rfl
    | cons b l => simp [insortBy, ha b (by simp)]

/-- C1: for every pair of event sets returned by the zoned and floating
queries, the merge step (`sorted(sorted(localized) + sorted(floating))`,
controllers.py lines 281-283) returns one sequence totally ordered
(non-decreasing) by the canonical event order, however the events are
distributed between the two sources; in particular a floating event
starting 08:00 precedes a zoned event starting 09:00 of the same day. -/
theorem merge_totally_ordered :
    (∀ loc flo : List Event, canonicalOrdered (mergeEvents loc flo)) ∧
    mergeEvents [⟨540, 0, "blue"⟩] [⟨480, 1, "red"⟩] =
      [⟨480, 1, "red"⟩, ⟨540, 0, "blue"⟩] := by
  constructor
  · intro loc flo
    exact pairwise_sortBy evLE evLE_total evLE_trans _
  · decide

/-! ### Day-partition lemmas -/

theorem chainCovers_le {s e : Nat} {L : List (Nat × Nat)} (h : chainCovers s e L) :
    s ≤ e := by
  induction L generalizing s with
  | nil => exact h.le
  | cons p rest ih =>
    obtain ⟨-, hlt, hrest⟩ := h
    exact le_trans (le_of_lt hlt) (ih hrest)

theorem chainCovers_bounds {s e : Nat} {L : List (Nat × Nat)} (h : chainCovers s e L) :
    ∀ p ∈ L, s ≤ p.1 ∧ p.2 ≤ e := by
  induction L generalizing s with
  | nil => intro p hp; simp at hp
  | cons q rest ih =>
    obtain ⟨hq, hlt, hrest⟩ := h
    intro p hp
    rw [List.mem_cons] at hp
    rcases hp with rfl | hp
    · exact ⟨hq.ge, chainCovers_le hrest⟩
    · have := ih hrest p hp
      exact ⟨le_trans (le_of_lt hlt) this.1, this.2⟩

theorem chainCovers_pairwise {s e : Nat} {L : List (Nat × Nat)} (h : chainCovers s e L) :
    L.Pairwise (fun p q => p.2 ≤ q.1) := by
  induction L generalizing s with
  | nil => exact List.Pairwise.nil
  | cons q rest ih =>
    obtain ⟨hq, hlt, hrest⟩ := h
    refine List.Pairwise.cons ?_ (ih hrest)
    intro p hp
    exact (chainCovers_bounds hrest p hp).1

theorem chainCovers_mem_iff {s e : Nat} {L : List (Nat × Nat)} (h : chainCovers s e L)
    (t : Nat) : (s ≤ t ∧ t < e) ↔ ∃ p ∈ L, p.1 ≤ t ∧ t < p.2 := by
  induction L generalizing s with
  | nil =>
    simp only [chainCovers] at h
    subst h
    simp only [List.mem_nil_iff]
    constructor
    · omega
    · rintro ⟨p, hp, -⟩
      exact absurd hp (by simp)
  | cons q rest ih =>
    obtain ⟨hq, hlt, hrest⟩ := h
    have hbe : q.2 ≤ e := chainCovers_le hrest
    have hiff := ih hrest
    constructor
    · intro ht
      by_cases hcase : t < q.2
      · exact ⟨q, by simp, hq ▸ ht.1, hcase⟩
      · obtain ⟨p, hp, hpt⟩ := hiff.mp ⟨by omega, ht.2⟩
        exact ⟨p, by simp [hp], hpt⟩
    · rintro ⟨p, hp, hpt⟩
      rw [List.mem_cons] at hp
      rcases hp with rfl | hp
      · omega
      · have := hiff.mpr ⟨p, hp, hpt⟩
        omega

theorem partitionRanges_chain (s e : Nat) (hse : s ≤ e) :
    chainCovers s e (partitionRanges s e) := by
  rw [partitionRanges]
  split
  case isTrue hlt =>
    refine ⟨rfl, ?_, ?_⟩
    · split
      · exact hlt
      · simp only [datetime_fillin_end, dayOf]
        omega
    · split
      case isTrue hday =>
        have hstop : ¬ datetime_fillin_end s < e := by
          simp only [datetime_fillin_end, dayOf] at *
          omega
        rw [partitionRanges, dif_neg hstop]
        simp only [chainCovers]
      case isFalse hday =>
        have hle : datetime_fillin_end s ≤ e := by
          simp only [datetime_fillin_end, dayOf] at *
          omega
        exact partitionRanges_chain (datetime_fillin_end s) e hle
  case isFalse hlt =>
    simp only [chainCovers]
    omega
termination_by e - s
decreasing_by
  simp only [datetime_fillin_end, dayOf]
  omega

theorem partitionRanges_boundaries (s e : Nat) :
    ∀ p ∈ partitionRanges s e, (p.1 % 1440 = 0 ∨ p.1 = s) ∧ (p.2 % 1440 = 0 ∨ p.2 = e) := by
  rw [partitionRanges]
  split
  case isTrue hlt =>
    intro p hp
    rw [List.mem_cons] at hp
    rcases hp with rfl | hp
    · refine ⟨Or.inr rfl, ?_⟩
      split
      · exact Or.inr rfl
      · simp only [datetime_fillin_end]
        omega
    · have := partitionRanges_boundaries (datetime_fillin_end s) e p hp
      have hmid : datetime_fillin_end s % 1440 = 0 := by
        simp only [datetime_fillin_end]
        omega
      rcases this with ⟨h1, h2⟩
      refine ⟨?_, h2⟩
      rcases h1 with h1 | h1
      · exact Or.inl h1
      · exact Or.inl (h1 ▸ hmid)
  case isFalse hlt =>
    intro p hp
    simp at hp
termination_by e - s
decreasing_by
  simp only [datetime_fillin_end, dayOf]
  omega

/-- C2: for every resolved range with `start ≤ end`, the day-by-day
partition walked by the `while start < end` loop of `get_list_from_str`
(`once=False`, controllers.py lines 235-241) is a finite ordered chain of
non-empty, contiguous, non-overlapping sub-ranges: they start at `start`,
each begins where the previous ends, they end at `end`, their union is
exactly `[start, end)`, and every boundary other than the very first start
and very last end sits on a local midnight. -/
theorem partition_exact_cover (s e : Nat) (hse : s ≤ e) :
    chainCovers s e (partitionRanges s e) ∧
    (∀ t, (s ≤ t ∧ t < e) ↔ ∃ p ∈ partitionRanges s e, p.1 ≤ t ∧ t < p.2) ∧
    (partitionRanges s e).Pairwise (fun p q => p.2 ≤ q.1) ∧
    (∀ p ∈ partitionRanges s e, (p.1 % 1440 = 0 ∨ p.1 = s) ∧ (p.2 % 1440 = 0 ∨ p.2 = e)) := by
  have hchain := partitionRanges_chain s e hse
  exact ⟨hchain, chainCovers_mem_iff hchain, chainCovers_pairwise hchain,
    partitionRanges_boundaries s e⟩

/-- Witness for C2 at the concrete range `[100, 4000)` (three partial days). -/
theorem partition_exact_cover_witness :
    chainCovers 100 4000 (partitionRanges 100 4000) :=
  (partition_exact_cover 100 4000 (by decide)).1

/-! ### Rendering-loop lemmas -/

theorem renderEvents_pure (fstr : Event → String) (rt : Nat × Nat) (env : Env)
    (w : Option Nat) (l : List Event) :
    renderEvents (fun ev _ _ => .ok (fstr ev)) rt env w l =
      .ok (l.flatMap (fun ev => wrapWidth w (fstr ev))) := by
  induction l with
  | nil => rfl
  | cons ev rest ih => simp [renderEvents, ih]

theorem renderEvents_ok_iff (fmt : Event → Nat × Nat → Env → Except String String)
    (rt : Nat × Nat) (env : Env) (w : Option Nat) (l : List Event) :
    (∃ lines, renderEvents fmt rt env w l = .ok lines) ↔
      ∀ ev ∈ l, ∃ str, fmt ev rt env = .ok str := by
  induction l with
  | nil => simp [renderEvents]
  | cons ev rest ih =>
    simp only [renderEvents, List.mem_cons]
    constructor
    · rintro ⟨lines, hl⟩
      intro x hx
      rcases hx with rfl | hx
      · cases hfmt : fmt x rt env with
        | error err => rw [hfmt] at hl; exact absurd hl (by simp)
        | ok str => exact ⟨str, rfl⟩
      · cases hfmt : fmt ev rt env with
        | error err => rw [hfmt] at hl; exact absurd hl (by simp)
        | ok str =>
          rw [hfmt] at hl
          cases hrest : renderEvents fmt rt env w rest with
          | error err => rw [hrest] at hl; exact absurd hl (by simp)
          | ok tl => exact ih.mp ⟨tl, hrest⟩ x hx
    · intro hall
      obtain ⟨str, hstr⟩ := hall ev (Or.inl rfl)
      obtain ⟨tl, htl⟩ := ih.mpr (fun x hx => hall x (Or.inr hx))
      exact ⟨wrapWidth w str ++ tl, by rw [hstr, htl]⟩

/-- C3: for every merged event sequence and range, the `notstarted=true`
filter of `get_list` (controllers.py line 286) removes exactly the events
whose zone-naive start is strictly before the range start, `notstarted=false`
drops nothing, and every kept event is rendered (one wrapped block per kept
event, in order). -/
theorem notstarted_filter_exact :
    (∀ qloc qflo s e, keptEvents qloc qflo false s e = mergeEvents (qloc s e) (qflo s e)) ∧
    (∀ qloc qflo s e ev, ev ∈ keptEvents qloc qflo true s e ↔
      ev ∈ mergeEvents (qloc s e) (qflo s e) ∧ ¬ ev.start < s) ∧
    (∀ (qloc qflo : Nat → Nat → List Event) (fstr : Event → String) s e ns env w,
      get_list qloc qflo (fun ev _ _ => .ok (fstr ev)) s e ns env w =
        .ok ((keptEvents qloc qflo ns s e).flatMap (fun ev => wrapWidth w (fstr ev)))) := by
  refine ⟨?_, ?_, ?_⟩
  · intro qloc qflo s e
    simp [keptEvents, keep]
  · intro qloc qflo s e ev
    simp [keptEvents, keep, List.mem_filter]
  · intro qloc qflo fstr s e ns env w
    exact renderEvents_pure fstr (s, e) (env.getD emptyEnv) w _

/-- C7: `get_list` succeeds if and only if `event.format` succeeds on every
event it renders; a single missing-template-key failure (the `KeyError` of
controllers.py lines 289-291) makes the whole call abort with an error —
there is no per-event skip and no partial line list. -/
theorem format_error_fatal (qloc qflo : Nat → Nat → List Event)
    (fmt : Event → Nat × Nat → Env → Except String String)
    (s e : Nat) (ns : Bool) (env : Option Env) (w : Option Nat) :
    (∃ lines, get_list qloc qflo fmt s e ns env w = .ok lines) ↔
      ∀ ev ∈ keptEvents qloc qflo ns s e, ∃ str, fmt ev (s, e) (env.getD emptyEnv) = .ok str :=
  renderEvents_ok_iff fmt (s, e) (env.getD emptyEnv) w _

/-! ### Range resolution -/

/-- Start-of-day is idempotent under the end-of-day fill-in: the end of the
day containing a midnight is that midnight plus one day. -/
theorem datetime_fillin_end_startOfDay (t : Nat) :
    datetime_fillin_end (startOfDay t) = startOfDay t + 1440 := by
  simp only [datetime_fillin_end, startOfDay, dayOf]
  omega

/-- C5: with an empty daterange token list the resolved range is exactly
start-of-today to start-of-tomorrow when `default_timedelta` is null, and
start-of-today to start-of-today plus the parsed default span otherwise
(controllers.py lines 208-217). -/
theorem empty_daterange_default
    (parser : List String → Except String (Option Nat × Option Nat))
    (durparser : String → Except String Nat) :
    (∀ now, resolveRange parser durparser now [] none =
      .ok (startOfDay now, startOfDay now + 1440)) ∧
    (∀ now td d, durparser td = .ok d →
      resolveRange parser durparser now [] (some td) =
        .ok (startOfDay now, startOfDay now + d)) := by
  constructor
  · intro now
    simp [resolveRange, datetime_fillin_end_startOfDay]
  · intro now td d hd
    simp [resolveRange, hd]

/-- Witness for C5 with `now` = minute 2000 of the epoch (01:33 on day 1)
and a duration parser returning 60 minutes. -/
theorem empty_daterange_default_witness :
    resolveRange (fun _ => Except.error "unused")
      (fun _ => Except.ok 60) 2000 [] (some "1h") = .ok (1440, 1500) :=
  (empty_daterange_default _ _).2 2000 "1h" 60 rfl

/-- C4 counterexample: the non-empty-token branch of the range resolution
(controllers.py lines 219-229) only checks the parsed components for
`None`; a date-expression result with equal non-null endpoints is returned
silently as a `start = end` range, with no `InvalidDateError`. -/
theorem resolve_silent_equal_range :
    resolveRange (fun _ => Except.ok (some 720, some 720))
      (fun _ => Except.error "unused") 0 ["x"] none = .ok (720, 720) := rfl

/-- C4 (amended): for every non-empty daterange token list the resolution
returns exactly the date-expression collaborator's pair when both
components are non-null — including a `start = end` (or even reversed)
range — and fails with `InvalidDateError` carrying the joined token text
exactly when the collaborator fails or yields a null component. -/
theorem resolve_nonempty_cases
    (parser : List String → Except String (Option Nat × Option Nat))
    (durparser : String → Except String Nat) (now : Nat)
    (dr : List String) (td : Option String) (h : dr ≠ []) :
    resolveRange parser durparser now dr td =
      match parser dr with
      | .error err => .error err
      | .ok (some s, some e) => .ok (s, e)
      | .ok _ => .error ("Invalid date range: \"" ++ String.intercalate " " dr ++ "\"") := by
  have hlen : ¬ dr.length = 0 := by
    cases dr with
    | nil => exact absurd rfl h
    | cons a l => simp
  rw [resolveRange, if_neg hlen]

/-- Witness for C4's amended statement: one token, parser yields a null
start, the resolution fails with the joined-token `InvalidDateError`. -/
theorem resolve_nonempty_cases_witness :
    resolveRange (fun _ => Except.ok (none, some 3))
      (fun _ => Except.error "unused") 0 ["a", "b"] none =
      Except.error "Invalid date range: \"a b\"" := by
  rw [resolve_nonempty_cases _ _ _ _ _ (by simp)]
  rfl

/-! ### Wrapping and colorization -/

theorem pysorted_singleton (ev : Event) : pysorted [ev] = [ev] := rfl

theorem sortBy_singleton (le : α → α → Bool) (a : α) : sortBy le [a] = [a] := rfl

/-- C6 counterexample: in `get_list` (controllers.py lines 292-296) a
rendered event string containing a line break is handed to `textwrap.wrap`
whole — the newline is collapsed like any whitespace instead of forcing a
line split — and the wrapped lines are not colorized; the output differs
from the split-then-wrap-then-colorize behaviour the claim describes. -/
theorem range_wrap_no_splitlines :
    get_list (fun _ _ => [⟨540, 0, "red"⟩]) (fun _ _ => [])
        (fun _ _ _ => Except.ok "ab\ncd") 0 1440 false none (some 45) =
      .ok ["ab cd"] ∧
    (["ab cd"] : List String) ≠
      ((splitlines "ab\ncd").flatMap (fun item => textwrapWrap 45 item)).map
        (fun line => colored line "red" true) :=
  ⟨rfl, by decide⟩

/-- C6 (amended): the split-on-line-breaks / word-wrap / colorize treatment
of rendered strings happens only on the `get_agenda` path (controllers.py
lines 119-127): there each event's rendering is split on its line breaks,
each resulting line is word-wrapped to the width in order, and each wrapped
physical line is colorized with the event's calendar color.  On the
`get_list` path (lines 292-296) the rendered string is word-wrapped
directly — its line breaks count as ordinary whitespace — and the wrapped
lines carry no colorization. -/
theorem wrap_colorize_paths :
    (∀ (rel : Event → Int → Bool → String) (ev : Event) (today fwd : Int)
        (width : Nat) (full bflc : Bool) (ldf : Int → String),
      get_agenda (fun _ => [ev]) rel today [today] fwd (some 1) width false full false bflc ldf =
        style "Today:" true ::
          ((splitlines (rel ev today full)).flatMap (fun item => textwrapWrap width item)).map
            (fun line => colored line ev.color bflc)) ∧
    (∀ (qloc qflo : Nat → Nat → List Event) (fstr : Event → String) (s e : Nat)
        (ns : Bool) (env : Option Env) (w : Nat),
      get_list qloc qflo (fun ev _ _ => .ok (fstr ev)) s e ns env (some (w + 1)) =
        .ok ((keptEvents qloc qflo ns s e).flatMap
          (fun ev => textwrapWrap (w + 1) (fstr ev)))) := by
  constructor
  · intro rel ev today fwd width full bflc ldf
    have hday : agendaDaylist [today] today fwd (some 1) false = [today] := by
      simp [agendaDaylist, sortBy, insortBy, show List.range 1 = [0] from rfl]
    rw [get_agenda, hday]
    simp [construct_daynames, agendaDayBlock, agendaEventLines, pysorted_singleton]
  · intro qloc qflo fstr s e ns env w
    rw [get_list, renderEvents_pure]
    simp [wrapWidth]

/-! ### The `"No events"` placeholder -/

theorem get_list_no_events (fmt : Event → Nat × Nat → Env → Except String String)
    (s e : Nat) (ns : Bool) (env : Option Env) (w : Option Nat) :
    get_list (fun _ _ => []) (fun _ _ => []) fmt s e ns env w = .ok [] := rfl

theorem runPartition_no_events (fmt : Event → Nat × Nat → Env → Except String String)
    (ns : Bool) (env : Env) (w : Option Nat) (L : List (Nat × Nat)) :
    runPartition (fun _ _ => []) (fun _ _ => []) fmt ns env w L = .ok [] := by
  induction L with
  | nil => rfl
  | cons p rest ih => simp [runPartition, ih, get_list_no_events]

theorem agendaDayBlock_skip (rel : Event → Int → Bool → String) (width : Nat)
    (full bflc : Bool) (col : List String) (dn : Int × String) :
    agendaDayBlock (fun _ => []) rel width full false bflc col dn = col := rfl

theorem foldl_agendaDayBlock_skip (rel : Event → Int → Bool → String) (width : Nat)
    (full bflc : Bool) (L : List (Int × String)) (col : List String) :
    L.foldl (agendaDayBlock (fun _ => []) rel width full false bflc) col = col := by
  induction L generalizing col with
  | nil => rfl
  | cons dn rest ih => rw [List.foldl_cons, agendaDayBlock_skip, ih]

/-- C8: neither pipeline ever returns an empty line sequence: a day window
with an event-less collection and `show_all_days=false` yields exactly the
single bolded `"No events"` placeholder (controllers.py lines 129-131),
any successful `get_list_from_str` result is non-empty, and with an
event-less collection it is exactly the placeholder (lines 245-247). -/
theorem no_events_placeholder :
    (∀ (geo : Int → List Event) (rel : Event → Int → Bool → String) (today : Int)
        (dates : List Int) (fwd : Int) (days : Option Nat) (width : Nat)
        (week full sad bflc : Bool) (ldf : Int → String),
      get_agenda geo rel today dates fwd days width week full sad bflc ldf ≠ []) ∧
    (∀ (rel : Event → Int → Bool → String) (today : Int) (dates : List Int)
        (fwd : Int) (days : Option Nat) (width : Nat) (week full bflc : Bool)
        (ldf : Int → String),
      get_agenda (fun _ => []) rel today dates fwd days width week full false bflc ldf =
        [style "No events" true]) ∧
    (∀ (qloc qflo : Nat → Nat → List Event)
        (fmt : Event → Nat × Nat → Env → Except String String)
        (parser : List String → Except String (Option Nat × Option Nat))
        (durparser : String → Except String Nat) (now : Nat) (dr : List String)
        (ns once : Bool) (td : Option String) (env : Option Env) (w : Option Nat)
        (lines : List String),
      get_list_from_str qloc qflo fmt parser durparser now dr ns once td env w =
        .ok lines → lines ≠ []) ∧
    (∀ (fmt : Event → Nat × Nat → Env → Except String String)
        (parser : List String → Except String (Option Nat × Option Nat))
        (durparser : String → Except String Nat) (now : Nat) (dr : List String)
        (ns once : Bool) (td : Option String) (env : Option Env) (w : Option Nat)
        (s e : Nat),
      resolveRange parser durparser now dr td = .ok (s, e) →
      get_list_from_str (fun _ _ => []) (fun _ _ => []) fmt parser durparser now dr
        ns once td env w = .ok [style "No events" true]) := by
  refine ⟨?_, ?_, ?_, ?_⟩
  · intro geo rel today dates fwd days width week full sad bflc ldf
    rw [get_agenda]
    split
    · simp
    · assumption
  · intro rel today dates fwd days width week full bflc ldf
    rw [get_agenda, foldl_agendaDayBlock_skip]
    simp
  · intro qloc qflo fmt parser durparser now dr ns once td env w lines hok
    rw [get_list_from_str] at hok
    cases hres : resolveRange parser durparser now dr td with
    | error err => rw [hres] at hok; exact absurd hok (by simp)
    | ok se =>
      rw [hres] at hok
      simp only at hok
      cases hrun : (if once then get_list qloc qflo fmt se.1 se.2 ns none w
          else runPartition qloc qflo fmt ns (env.getD emptyEnv) w
            (partitionRanges se.1 se.2)) with
      | error err => rw [hrun] at hok; exact absurd hok (by simp)
      | ok col =>
        rw [hrun] at hok
        simp only [Except.ok.injEq] at hok
        subst hok
        split
        · simp
        · assumption
  · intro fmt parser durparser now dr ns once td env w s e hres
    rw [get_list_from_str, hres]
    simp only
    cases once with
    | true => rw [if_pos rfl, get_list_no_events]; rfl
    | false => rw [if_neg (by simp), runPartition_no_events]; rfl

/-- Witness for C8: concrete placeholder non-emptiness and the concrete
empty-collection placeholder output, via the third and fourth conjuncts. -/
theorem no_events_placeholder_witness :
    ([style "No events" true] : List String) ≠ [] ∧
    get_list_from_str (fun _ _ => []) (fun _ _ => [])
      (fun _ _ _ => Except.ok "ev") (fun _ => Except.error "p")
      (fun _ => Except.error "d") 0 [] false true none none none =
      .ok [style "No events" true] := by
  constructor
  · exact no_events_placeholder.2.2.1 (fun _ _ => []) (fun _ _ => [])
      (fun _ _ _ => Except.ok "ev") (fun _ => Except.error "p")
      (fun _ => Except.error "d") 0 [] false true none none none
      [style "No events" true] rfl
  · exact no_events_placeholder.2.2.2 (fun _ _ _ => Except.ok "ev")
      (fun _ => Except.error "p") (fun _ => Except.error "d") 0 [] false true
      none none none 0 1440 rfl

/-! ### Week snapping -/

theorem flatMap_single (l : List Nat) (g : Nat → Int) :
    l.flatMap (fun x => [g x]) = l.map g := by
  induction l with
  | nil => rfl
  | cons a l ih => simp [ih]

theorem pairwise_range_map_add (s : Int) (n : Nat) :
    (((List.range n).map (fun (i : Nat) => s + (i : Int))).Pairwise
      (fun a b => intLE a b = true)) := by
  refine List.pairwise_map.mpr ?_
  refine (List.pairwise_lt_range n).imp ?_
  intro a b hab
  simp only [intLE, decide_eq_true_eq]
  omega

/-- C9: with `week=true` (controllers.py lines 99-102) every anchor is
snapped back by `(weekday - firstweekday) % 7` days before the day-count
expansion and the day count is forced to 7: a single anchor resolves to
exactly the 7 consecutive days starting at its snapped week start, a
multi-anchor list is snapped anchor-wise before expansion, and the anchor
2024-06-12 (day 19886 since 1970-01-01, a Wednesday) with `firstweekday=0`
yields the window starting 2024-06-10 (Monday, day 19884) spanning 7
days. -/
theorem week_snap_window :
    (∀ (a today fwd : Int) (days : Option Nat),
      agendaDaylist [a] today fwd days true =
        (List.range 7).map (fun (i : Nat) => snapWeek fwd a + (i : Int))) ∧
    (∀ (d : Int) (ds : List Int) (today fwd : Int) (days : Option Nat),
      agendaDaylist (d :: ds) today fwd days true =
        sortBy intLE ((List.range 7).flatMap
          (fun (one : Nat) => (d :: ds).map (fun x => snapWeek fwd x + (one : Int))))) ∧
    agendaDaylist [19886] 0 0 none true =
      [19884, 19885, 19886, 19887, 19888, 19889, 19890] := by
  refine ⟨?_, ?_, ?_⟩
  · intro a today fwd days
    rw [agendaDaylist]
    simp only [List.isEmpty_cons, if_true, if_false, Bool.false_eq_true, List.map_cons,
      List.map_nil]
    rw [show (List.range 7).flatMap (fun (one : Nat) => [snapWeek fwd a + (one : Int)]) =
        (List.range 7).map (fun (one : Nat) => snapWeek fwd a + (one : Int)) from
      flatMap_single _ _]
    exact sortBy_eq_of_pairwise intLE _ (pairwise_range_map_add _ 7)
  · intro d ds today fwd days
    rw [agendaDaylist]
    simp [List.map_map, Function.comp_def]
  · decide

/-! ### `env` independence of the `once=True` path -/

/-- C10: `get_list_from_str` with `once=True` (controllers.py lines
243-244) does not forward its `env` argument to `get_list`, so for any two
static-value environments the returned line sequence is identical: the
environment can influence rendering only on the `once=False` per-day
path. -/
theorem once_env_independent (qloc qflo : Nat → Nat → List Event)
    (fmt : Event → Nat × Nat → Env → Except String String)
    (parser : List String → Except String (Option Nat × Option Nat))
    (durparser : String → Except String Nat) (now : Nat) (dr : List String)
    (ns : Bool) (td : Option String) (w : Option Nat) (env1 env2 : Option Env) :
    get_list_from_str qloc qflo fmt parser durparser now dr ns true td env1 w =
      get_list_from_str qloc qflo fmt parser durparser now dr ns true td env2 w := rfl

end Khal
